import Mathlib

/-!
Verification of the brilift lowering stage (src/brilift/src/main.rs).

The Rust program lowers Bril IR functions to Cranelift IR. We embed the
source-side data model (`bril_rs` types as used by the program), the type
mapper `tr_type`, the signature builder `tr_sig`, the destination-collection
pre-pass `all_vars`, and the per-function lowering loop of
`Translator::compile_func`.

Modelling decisions, each tied to the source:
* `bril::Type` has exactly the two variants matched in `tr_type` (the Rust
  match is exhaustive with no wildcard), so `BrilType` is the closed two
  element inductive.
* `all_vars` collects `(dest, type)` pairs into a `HashMap`; a repeated key
  overwrites (last insert wins) and iteration order is unspecified.  We model
  the map extensionally as `String → Option BrilType` built by a left fold
  (faithful to `collect`'s repeated `insert`), and we model the unspecified
  iteration order used by `compile_func`'s `enumerate()` as an explicit
  parameter `order : List String`; `validOrder` says the parameter is a
  duplicate-free enumeration of exactly the map's keys, which is everything
  the Rust `HashMap` guarantees.
* Rust panics (`todo!()`, `Option::unwrap` on `None`, out-of-bounds `args[0]`)
  are modelled as `Except.error` outcomes of the corresponding
  `CompileError`; the Rust process aborts, our model returns the error.
* Cranelift itself (value numbering inside `FunctionBuilder`, `verify_function`,
  and `Module` registration) is the external backend collaborator; we record
  the operations the program asks the builder to emit, against the variable
  indices it allocates, as the `Op` list of the produced `TargetFunction`.
-/

namespace Brilift

/-- `bril::Type`: the closed source type set (`Int`, `Bool`). -/
inductive BrilType where
  | int
  | bool
deriving DecidableEq, Repr

/-- `bril::Literal`: constant literals. -/
inductive Literal where
  | int (i : Int)
  | bool (b : Bool)
deriving DecidableEq, Repr

/-- `bril::ConstOps`: the single constant operator. -/
inductive ConstOps where
  | const
deriving DecidableEq, Repr

/-- `bril::ValueOps`: value operators (all treated alike by the program). -/
inductive ValueOps where
  | add | sub | mul | div
  | eq | lt | gt | le | ge
  | not | and | or
  | call | id
deriving DecidableEq, Repr

/-- `bril::EffectOps`: effect operators. -/
inductive EffectOps where
  | jump | branch | call | ret | print | nop
deriving DecidableEq, Repr

/-- `bril::Argument`: a named, typed function argument. -/
structure Argument where
  name : String
  arg_type : BrilType
deriving DecidableEq, Repr

/-- `bril::Instruction`: tagged instruction variants. -/
inductive Instruction where
  | constant (dest : String) (op : ConstOps) (const_type : BrilType) (value : Literal)
  | value (args : List String) (dest : String) (funcs : List String)
      (labels : List String) (op : ValueOps) (op_type : BrilType)
  | effect (args : List String) (funcs : List String) (labels : List String)
      (op : EffectOps)
deriving DecidableEq, Repr

/-- `bril::Code`: a stream element, either a label or an instruction. -/
inductive Code where
  | label (l : String)
  | instruction (i : Instruction)
deriving DecidableEq, Repr

/-- `bril::Function`: name, arguments, optional return type, code stream. -/
structure Function where
  name : String
  args : List Argument
  return_type : Option BrilType
  instrs : List Code
deriving DecidableEq, Repr

/-- `ir::Type`: the two Cranelift machine types the program uses. -/
inductive IRType where
  | I64
  | B1
deriving DecidableEq, Repr

/-- `isa::CallConv`: the program only ever constructs `SystemV`. -/
inductive CallConv where
  | systemV
deriving DecidableEq, Repr

/-- `ir::AbiParam::new`: a parameter slot carrying a machine type (purpose and
extension take their defaults in the source, so only the type is modelled). -/
structure AbiParam where
  value_type : IRType
deriving DecidableEq, Repr

/-- `ir::Signature`: calling convention plus parameter and return slots. -/
structure Signature where
  callConv : CallConv
  params : List AbiParam
  returns : List AbiParam
deriving DecidableEq, Repr

/-- `ir::Signature::new(cc)`: empty signature with the given convention. -/
def Signature.new (cc : CallConv) : Signature :=
  { callConv := cc, params := [], returns := [] }

/-- `fn tr_type`: source type → Cranelift machine type. -/
def tr_type (typ : BrilType) : IRType :=
  match typ with
  | .int => .I64
  | .bool => .B1

/-- `fn tr_sig`: build the Cranelift signature of a Bril function — start from
an empty `SystemV` signature, push the mapped return type if one is declared,
then push each argument's mapped type in declaration order. -/
def tr_sig (func : Function) : Signature :=
  let sig := Signature.new CallConv.systemV
  let sig :=
    match func.return_type with
    | some ret => { sig with returns := sig.returns ++ [AbiParam.mk (tr_type ret)] }
    | none => sig
  func.args.foldl
    (fun sig arg => { sig with params := sig.params ++ [AbiParam.mk (tr_type arg.arg_type)] })
    sig

/-- The `(dest, type)` pair contributed by one stream element to `all_vars`'s
`filter_map`: `Constant` and `Value` instructions yield their destination and
declared type, everything else yields nothing. -/
def destType (code : Code) : Option (String × BrilType) :=
  match code with
  | .instruction op =>
    match op with
    | .constant dest _ typ _ => some (dest, typ)
    | .value _ dest _ _ _ typ => some (dest, typ)
    | _ => none
  | _ => none

/-- One `HashMap` insertion of `all_vars`'s `collect`: bind `dest` to `typ`,
overwriting any earlier binding, when the stream element contributes a pair. -/
def varStep (m : String → Option BrilType) (code : Code) : String → Option BrilType :=
  match destType code with
  | some (dest, typ) => fun s => if s = dest then some typ else m s
  | none => m

/-- `fn all_vars`, extensionally: the `HashMap` built by collecting the
`filter_map`ped `(dest, type)` pairs.  Collection inserts pairs in stream
order, a repeated key overwriting the earlier entry, so the resulting
key→value map is this left fold. -/
def all_vars (func : Function) : String → Option BrilType :=
  func.instrs.foldl varStep (fun _ => none)

/-- The destination names of a function's `Constant`/`Value` instructions, in
stream order and with repetitions (the key stream fed to the `HashMap`). -/
def destNames (func : Function) : List String :=
  func.instrs.filterMap (fun code => (destType code).map Prod.fst)

/-- The variable map `vars` of `compile_func`: iterating the `HashMap` in
order `order` and calling `Variable::new(i)` on the `i`-th entry binds each
enumerated name to its position. -/
def mkVars (order : List String) : String → Option Nat :=
  fun s => order.indexOf? s

/-- `order` is a faithful enumeration of the `HashMap` returned by
`all_vars`: duplicate-free and containing exactly the map's keys.  Rust's
`HashMap` guarantees nothing further about its iteration order. -/
def validOrder (func : Function) (order : List String) : Prop :=
  order.Nodup ∧ ∀ s, s ∈ order ↔ (all_vars func s).isSome

/-- The operations `compile_func` asks the Cranelift `FunctionBuilder` to
emit, naming variables by their allocated index:
`iconst v i` = `def_var(v, ins().iconst(I64, i))`,
`bconst v b` = `def_var(v, ins().bconst(B1, b))`,
`callPrintInt v` = `ins().call(print_int, [use_var(v)])`,
`ret` = `ins().return_(&[])`. -/
inductive Op where
  | iconst (var : Nat) (val : Int)
  | bconst (var : Nat) (val : Bool)
  | callPrintInt (var : Nat)
  | ret
deriving DecidableEq, Repr

/-- The Rust panics `compile_func` can hit, modelled as error outcomes:
`todo` for the `todo!()` arm, `unwrapNone` for `vars.get(..).unwrap()` on a
missing key, `indexOutOfBounds` for `args[0]` on an empty argument list. -/
inductive CompileError where
  | todo
  | unwrapNone
  | indexOutOfBounds
deriving DecidableEq, Repr

/-- One iteration of `compile_func`'s instruction loop: the operations one
stream element makes the builder emit, against the variable map.
`Constant` materialises the literal and binds the destination's variable;
`Effect`/`Print` resolves `args[0]`'s variable and calls `print_int`;
any other `Effect` operator hits `todo!()`; `Value` instructions and labels
fall to the `_ => ()` arms and emit nothing. -/
def lowerCode (vars : String → Option Nat) (code : Code) :
    Except CompileError (List Op) :=
  match code with
  | .instruction inst =>
    match inst with
    | .constant dest _ _ value =>
      match vars dest with
      | some var =>
        match value with
        | .int i => .ok [.iconst var i]
        | .bool b => .ok [.bconst var b]
      | none => .error .unwrapNone
    | .effect args _ _ op =>
      match op with
      | .print =>
        match args.head? with
        | some a0 =>
          match vars a0 with
          | some var => .ok [.callPrintInt var]
          | none => .error .unwrapNone
        | none => .error .indexOutOfBounds
      | _ => .error .todo
    | .value _ _ _ _ _ _ => .ok []
  | .label _ => .ok []

/-- The whole instruction loop of `compile_func`: each element's emissions are
appended to the block in stream order; the first panic aborts the loop. -/
def lowerCodes (vars : String → Option Nat) :
    List Code → Except CompileError (List Op)
  | [] => .ok []
  | code :: rest =>
    match lowerCode vars code with
    | .ok ops =>
      match lowerCodes vars rest with
      | .ok rest' => .ok (ops ++ rest')
      | .error e => .error e
    | .error e => .error e

/-- The Cranelift function `compile_func` hands to the backend: its name, its
signature, the number of declared variables, the number of blocks created by
the builder, and the emitted operation stream of the single block. -/
structure TargetFunction where
  name : String
  sig : Signature
  numVars : Nat
  numBlocks : Nat
  ops : List Op
deriving DecidableEq, Repr

/-- `Translator::compile_func`, up to the hand-off to the backend
(`verify_function` and module registration are the opaque collaborator):
build the signature with `tr_sig`; declare one variable per `all_vars` entry,
enumerated in the map's iteration order `order`; create the single block;
lower the instruction stream; append the mandatory bare
`return_(&[])`. A Rust panic during the loop is an error outcome. -/
def compile_func (order : List String) (func : Function) :
    Except CompileError TargetFunction :=
  let sig := tr_sig func
  let vars := mkVars order
  match lowerCodes vars func.instrs with
  | .ok ops =>
    .ok { name := func.name
          sig := sig
          numVars := order.length
          numBlocks := 1
          ops := ops ++ [.ret] }
  | .error e => .error e

/-- The runtime binding table (`RTSigs`): the single runtime routine
`print_int`, declared once per compilation unit with one `I64` parameter and
no return values. -/
def rt_print_int_sig : Signature :=
  let sig := Signature.new CallConv.systemV
  { sig with params := sig.params ++ [AbiParam.mk IRType.I64] }

/-! ### Concrete Bril functions used by the scenario claims -/

/-- Scenario A: `main(): void { a: int = const 5; print a; }`. -/
def mainFunc : Function :=
  { name := "main", args := [], return_type := none,
    instrs := [ .instruction (.constant "a" .const .int (.int 5)),
                .instruction (.effect ["a"] [] [] .print) ] }

/-- Scenario B: the one-integer-argument identity function
`id(x: int): int { ret x; }`. -/
def idFunc : Function :=
  { name := "id", args := [⟨"x", .int⟩], return_type := some .int,
    instrs := [ .instruction (.effect ["x"] [] [] .ret) ] }

/-- A function containing a `Value` instruction (`b: int = add a a`) whose
operator has no lowering in the program. -/
def valueSkipFunc : Function :=
  { name := "vskip", args := [], return_type := none,
    instrs := [ .instruction (.constant "a" .const .int (.int 1)),
                .instruction (.value ["a", "a"] "b" [] [] .add .int) ] }

/-- A function that prints a boolean: `b: bool = const true; print b;`. -/
def boolPrintFunc : Function :=
  { name := "bprint", args := [], return_type := none,
    instrs := [ .instruction (.constant "b" .const .bool (.bool true)),
                .instruction (.effect ["b"] [] [] .print) ] }

/-- A function redeclaring destination `a` first at type `int`, then at type
`bool`. -/
def typeConflictFunc : Function :=
  { name := "conflict", args := [], return_type := none,
    instrs := [ .instruction (.constant "a" .const .int (.int 1)),
                .instruction (.value ["a"] "a" [] [] .not .bool) ] }

/-- A function defining the same destination `a` twice at the same type. -/
def repeatDefFunc : Function :=
  { name := "rep", args := [], return_type := none,
    instrs := [ .instruction (.constant "a" .const .int (.int 1)),
                .instruction (.constant "a" .const .int (.int 2)),
                .instruction (.effect ["a"] [] [] .print) ] }

/-- A function whose only instruction is an unconditional jump effect. -/
def jumpFunc : Function :=
  { name := "jmp", args := [], return_type := none,
    instrs := [ .instruction (.effect [] [] ["somewhere"] .jump) ] }

/-- A function containing only skippable stream elements: a label and a
`Value` instruction. -/
def valueLabelFunc : Function :=
  { name := "v", args := [], return_type := none,
    instrs := [ .label "L",
                .instruction (.value ["a"] "b" [] [] .add .int) ] }

/-- A stream element is a `Value` instruction or a label. -/
def isValueOrLabel (code : Code) : Bool :=
  match code with
  | .label _ => true
  | .instruction (.value _ _ _ _ _ _) => true
  | _ => false

/-! ### Helper lemmas about the pre-pass -/

/-- The type recorded for `s` by the declaration stream `codes`, read off the
stream directly: the type carried by the last `Constant`/`Value` instruction
whose destination is `s` (found by searching the reversed pair stream). -/
def lastDeclType (codes : List Code) (s : String) : Option BrilType :=
  ((codes.filterMap destType).reverse.find? (fun p => p.1 == s)).map Prod.snd

theorem foldl_varStep_eq (codes : List Code) :
    ∀ (m : String → Option BrilType) (s : String),
      codes.foldl varStep m s = (lastDeclType codes s).or (m s) := by
  induction codes with
  | nil => intro m s; rfl
  | cons c rest ih =>
    intro m s
    rw [List.foldl_cons, ih]
    cases hd : destType c with
    | none =>
      have hstep : varStep m c = m := by unfold varStep; rw [hd]
      have hld : lastDeclType (c :: rest) s = lastDeclType rest s := by
        unfold lastDeclType; rw [List.filterMap_cons, hd]
      rw [hstep, hld]
    | some p =>
      obtain ⟨d, t⟩ := p
      have hstep : varStep m c = fun x => if x = d then some t else m x := by
        unfold varStep; rw [hd]
      have hld : lastDeclType (c :: rest) s
          = (((lastDeclType rest s).map (fun b => (d, b))).or
              (if d = s then some (d, t) else none)).map Prod.snd := by
        unfold lastDeclType
        rw [List.filterMap_cons, hd, List.reverse_cons, List.find?_append]
        cases hf : (rest.filterMap destType).reverse.find? (fun p => p.1 == s) with
        | none =>
          cases hbe : d == s with
          | true => simp [List.find?, hbe, eq_of_beq hbe]
          | false => simp [List.find?, hbe, ne_of_beq_false hbe]
        | some q => simp
      rw [hstep, hld]
      cases hf : lastDeclType rest s with
      | some t' => simp
      | none =>
        by_cases hds : d = s
        · subst hds; simp
        · simp [hds, Ne.symm hds]

/-- `all_vars` records, for each name, exactly the type of its last
declaration in the stream. -/
theorem all_vars_eq_lastDeclType (f : Function) (s : String) :
    all_vars f s = lastDeclType f.instrs s := by
  unfold all_vars
  rw [foldl_varStep_eq]
  exact Option.or_none

/-- `destNames` is the first projection of the collected pair stream. -/
theorem destNames_eq_map_fst (f : Function) :
    destNames f = (f.instrs.filterMap destType).map Prod.fst := by
  unfold destNames
  rw [List.map_filterMap]

/-- The `HashMap` of `all_vars` has key `s` exactly when `s` is the
destination of some `Constant`/`Value` instruction of the function. -/
theorem all_vars_isSome_iff (f : Function) (s : String) :
    (all_vars f s).isSome ↔ s ∈ destNames f := by
  rw [all_vars_eq_lastDeclType, destNames_eq_map_fst]
  unfold lastDeclType
  rw [Option.isSome_map']
  rw [List.find?_isSome]
  constructor
  · rintro ⟨p, hp, hps⟩
    exact List.mem_map.2 ⟨p, List.mem_reverse.1 hp, beq_iff_eq.1 hps⟩
  · rintro hm
    obtain ⟨p, hp, hps⟩ := List.mem_map.1 hm
    exact ⟨p, List.mem_reverse.2 hp, beq_iff_eq.2 hps⟩

/-- A valid enumeration is a duplicate-free listing of exactly the
destination names. -/
theorem validOrder_iff (f : Function) (order : List String) :
    validOrder f order ↔ order.Nodup ∧ ∀ s, s ∈ order ↔ s ∈ destNames f := by
  unfold validOrder
  constructor
  · rintro ⟨hnd, hm⟩
    exact ⟨hnd, fun s => (hm s).trans (all_vars_isSome_iff f s)⟩
  · rintro ⟨hnd, hm⟩
    exact ⟨hnd, fun s => (hm s).trans (all_vars_isSome_iff f s).symm⟩

theorem nodup_forall_mem_singleton {l : List String} {a : String}
    (hnd : l.Nodup) (hm : ∀ x, x ∈ l ↔ x = a) : l = [a] := by
  cases l with
  | nil => exact absurd ((hm a).2 rfl) (by simp)
  | cons x t =>
    have hx : x = a := (hm x).1 (List.mem_cons_self x t)
    subst hx
    have ht : t = [] := by
      by_contra hne
      obtain ⟨y, hy⟩ := List.exists_mem_of_ne_nil t hne
      have hyx : y = x := (hm y).1 (List.mem_cons_of_mem x hy)
      subst hyx
      exact (List.nodup_cons.1 hnd).1 hy
    rw [ht]

/-- The only valid enumeration for Scenario A's function is `["a"]`. -/
theorem validOrder_mainFunc {order : List String}
    (h : validOrder mainFunc order) : order = ["a"] := by
  obtain ⟨hnd, hm⟩ := (validOrder_iff mainFunc order).1 h
  refine nodup_forall_mem_singleton hnd (fun x => ?_)
  have hdn : destNames mainFunc = ["a"] := rfl
  rw [hdn] at hm
  simpa using hm x

/-! ### Helper lemmas about the lowering loop -/

/-- A successfully lowered stream element never emits the block terminator. -/
theorem lowerCode_ok_ret_not_mem (vars : String → Option Nat) (code : Code)
    (ops : List Op) (h : lowerCode vars code = .ok ops) : Op.ret ∉ ops := by
  unfold lowerCode at h
  repeat' split at h
  all_goals first
    | exact Except.noConfusion h
    | (injection h with h; subst h; simp)

/-- The instruction loop never emits the block terminator. -/
theorem lowerCodes_ok_ret_not_mem (vars : String → Option Nat)
    (codes : List Code) :
    ∀ res, lowerCodes vars codes = .ok res → Op.ret ∉ res := by
  induction codes with
  | nil =>
    intro res h
    unfold lowerCodes at h
    injection h with h
    simp [← h]
  | cons c rest ih =>
    intro res h
    unfold lowerCodes at h
    cases hc : lowerCode vars c with
    | error e => rw [hc] at h; cases h
    | ok ops =>
      rw [hc] at h
      cases hr : lowerCodes vars rest with
      | error e => rw [hr] at h; cases h
      | ok rest' =>
        rw [hr] at h
        injection h with h
        subst h
        have h1 := lowerCode_ok_ret_not_mem vars c ops hc
        have h2 := ih rest' hr
        simp [List.mem_append, h1, h2]

/-- `Value` instructions lower to nothing, successfully. -/
theorem lowerCode_value_skipped (vars : String → Option Nat)
    (args : List String) (dest : String) (funcs labels : List String)
    (op : ValueOps) (typ : BrilType) :
    lowerCode vars (.instruction (.value args dest funcs labels op typ))
      = .ok [] := rfl

/-- Labels lower to nothing, successfully. -/
theorem lowerCode_label_skipped (vars : String → Option Nat) (l : String) :
    lowerCode vars (.label l) = .ok [] := rfl

/-- Every `Effect` operator other than `Print` hits the `todo!()` arm. -/
theorem lowerCode_effect_todo (vars : String → Option Nat)
    (args funcs labels : List String) (op : EffectOps) (h : op ≠ .print) :
    lowerCode vars (.instruction (.effect args funcs labels op))
      = .error .todo := by
  cases op with
  | print => exact absurd rfl h
  | jump => rfl
  | branch => rfl
  | call => rfl
  | ret => rfl
  | nop => rfl

/-- A stream of `Value` instructions and labels lowers to no operations. -/
theorem lowerCodes_all_skipped (vars : String → Option Nat)
    (codes : List Code) (h : ∀ c ∈ codes, isValueOrLabel c) :
    lowerCodes vars codes = .ok [] := by
  induction codes with
  | nil => rfl
  | cons c rest ih =>
    have hc : lowerCode vars c = .ok [] := by
      have := h c (List.mem_cons_self c rest)
      unfold isValueOrLabel at this
      rcases c with l | inst
      · rfl
      · rcases inst with _ | _ | _
        · cases this
        · rfl
        · cases this
    have hr := ih (fun c hm => h c (List.mem_cons_of_mem _ hm))
    unfold lowerCodes
    rw [hc, hr]
    rfl

/-- Reaching a non-`Print` effect after skippable elements aborts the loop. -/
theorem lowerCodes_effect_todo (vars : String → Option Nat)
    (pre : List Code) (hpre : ∀ c ∈ pre, isValueOrLabel c)
    (args funcs labels : List String) (op : EffectOps) (h : op ≠ .print)
    (rest : List Code) :
    lowerCodes vars (pre ++ .instruction (.effect args funcs labels op) :: rest)
      = .error .todo := by
  induction pre with
  | nil =>
    rw [List.nil_append]
    unfold lowerCodes
    rw [lowerCode_effect_todo vars args funcs labels op h]
  | cons c pre ih =>
    have hc : lowerCode vars c = .ok [] := by
      have := hpre c (List.mem_cons_self c pre)
      unfold isValueOrLabel at this
      rcases c with l | inst
      · rfl
      · rcases inst with _ | _ | _
        · cases this
        · rfl
        · cases this
    rw [List.cons_append]
    unfold lowerCodes
    rw [hc, ih (fun c hm => hpre c (List.mem_cons_of_mem _ hm))]

/-- The signature-building fold over the arguments appends exactly the mapped
argument types, in order, and touches nothing else. -/
theorem tr_sig_foldl (args : List Argument) :
    ∀ (sig : Signature),
      args.foldl
        (fun sig arg =>
          { sig with params := sig.params ++ [AbiParam.mk (tr_type arg.arg_type)] })
        sig
      = { sig with
          params := sig.params ++ args.map (fun a => AbiParam.mk (tr_type a.arg_type)) } := by
  induction args with
  | nil => intro sig; simp
  | cons a args ih =>
    intro sig
    rw [List.foldl_cons, ih]
    simp

/-- A successful `compile_func` run is exactly: the loop lowered the whole
stream, and the result carries the built signature, one variable per
enumerated name, the single block, and the emitted operations capped by the
mandatory bare return. -/
theorem compile_func_ok_shape (order : List String) (f : Function)
    (tf : TargetFunction) (h : compile_func order f = .ok tf) :
    ∃ ops, lowerCodes (mkVars order) f.instrs = .ok ops
      ∧ tf = { name := f.name, sig := tr_sig f, numVars := order.length,
               numBlocks := 1, ops := ops ++ [.ret] } := by
  simp only [compile_func] at h
  cases hlc : lowerCodes (mkVars order) f.instrs with
  | error e => rw [hlc] at h; cases h
  | ok ops =>
    rw [hlc] at h
    injection h with h
    exact ⟨ops, rfl, h.symm⟩

/-! ### The claims -/

/-- Claim C1: lowering `main(): void { a: int = const 5; print a; }` produces
a target function with a zero-argument, void `SystemV` signature and exactly
one block whose operations are, in order: materialize the integer constant 5
into variable 0, call the integer-print runtime binding with that variable's
value, and return — whatever iteration order the variable `HashMap` takes. -/
theorem main_scenario_lowering :
    ∀ order : List String, validOrder mainFunc order →
      compile_func order mainFunc
        = .ok { name := "main",
                sig := { callConv := .systemV, params := [], returns := [] },
                numVars := 1, numBlocks := 1,
                ops := [.iconst 0 5, .callPrintInt 0, .ret] } := by
  intro order h
  rw [validOrder_mainFunc h]
  rfl

/-- Witness for C1 at the concrete enumeration `["a"]`. -/
theorem main_scenario_lowering_witness :
    compile_func ["a"] mainFunc
      = .ok { name := "main",
              sig := { callConv := .systemV, params := [], returns := [] },
              numVars := 1, numBlocks := 1,
              ops := [.iconst 0 5, .callPrintInt 0, .ret] } :=
  main_scenario_lowering ["a"] (by
    refine (validOrder_iff mainFunc ["a"]).2 ⟨by decide, fun s => ?_⟩
    have hdn : destNames mainFunc = ["a"] := rfl
    rw [hdn])

/-- Claim C2, counterexample: lowering the identity function
`id(x: int): int { ret x; }` does not produce a target function at all — the
`Return` effect hits the `todo!()` arm and the translation aborts. -/
theorem identity_lowering_counterexample :
    compile_func [] idFunc = .error CompileError.todo := rfl

/-- Claim C2, amended: lowering the one-integer-argument identity function
aborts with the unimplemented-operator panic at its `Return` effect
instruction, under every variable enumeration; no one-block target function
carrying the argument's value in its return is produced. -/
theorem identity_lowering_panics :
    ∀ order : List String, compile_func order idFunc
      = .error CompileError.todo :=
  fun _ => rfl

/-- Witness for the amended C2 at the concrete enumeration `["x"]`. -/
theorem identity_lowering_panics_witness :
    compile_func ["x"] idFunc = .error CompileError.todo :=
  identity_lowering_panics ["x"]

/-- Claim C3, counterexample: a function whose stream contains the
unsupported `Value` operator `add` lowers successfully — the `add`
instruction is silently skipped (no operation is emitted for it) instead of
failing fatally with an unsupported-operator error. -/
theorem value_op_silently_skipped_counterexample :
    compile_func ["a", "b"] valueSkipFunc
      = .ok { name := "vskip",
              sig := { callConv := .systemV, params := [], returns := [] },
              numVars := 2, numBlocks := 1,
              ops := [.iconst 0 1, .ret] } := rfl

/-- Claim C3, amended: `Effect` instructions whose operator has no backend
mapping fail fatally (the `todo!()` panic), but `Value` instructions —
whatever their operator — are silently skipped: they emit no target
operations and lowering continues. -/
theorem effect_fatal_value_skipped :
    (∀ (vars : String → Option Nat) (args : List String) (dest : String)
        (funcs labels : List String) (op : ValueOps) (typ : BrilType),
      lowerCode vars (.instruction (.value args dest funcs labels op typ))
        = .ok [])
    ∧ (∀ (vars : String → Option Nat) (args funcs labels : List String)
        (op : EffectOps), op ≠ .print →
      lowerCode vars (.instruction (.effect args funcs labels op))
        = .error .todo) :=
  ⟨lowerCode_value_skipped, lowerCode_effect_todo⟩

/-- Witness for the amended C3: a concrete skipped `add` and a concrete
fatal `jump`. -/
theorem effect_fatal_value_skipped_witness :
    lowerCode (mkVars []) (.instruction (.value ["a", "a"] "b" [] [] .add .int))
      = .ok []
    ∧ lowerCode (mkVars []) (.instruction (.effect [] [] ["somewhere"] .jump))
      = .error .todo :=
  ⟨effect_fatal_value_skipped.1 (mkVars []) ["a", "a"] "b" [] [] .add .int,
   effect_fatal_value_skipped.2 (mkVars []) [] [] ["somewhere"] .jump
     (by decide)⟩

/-- Claim C4, counterexample: printing a boolean emits a call to the
integer-print binding anyway — the argument's mapped type is `B1`, while the
only runtime binding, `print_int`, takes an `I64` parameter, so the emitted
call does not go to a binding whose signature matches the argument's mapped
type. -/
theorem print_ignores_argument_type_counterexample :
    compile_func ["b"] boolPrintFunc
      = .ok { name := "bprint",
              sig := { callConv := .systemV, params := [], returns := [] },
              numVars := 1, numBlocks := 1,
              ops := [.bconst 0 true, .callPrintInt 0, .ret] }
    ∧ all_vars boolPrintFunc "b" = some BrilType.bool
    ∧ tr_type BrilType.bool ≠ IRType.I64
    ∧ rt_print_int_sig.params = [AbiParam.mk IRType.I64] :=
  ⟨rfl, rfl, fun h => IRType.noConfusion h, rfl⟩

/-- Claim C4, amended: for every `Print` effect instruction the lowerer
resolves the first argument's register and emits a call to the integer-print
binding with that value, regardless of the argument's type; the runtime
binding table holds only `print_int`, with a single `I64` parameter. -/
theorem print_always_calls_print_int :
    (∀ (vars : String → Option Nat) (args funcs labels : List String)
        (a0 : String) (v : Nat),
      args.head? = some a0 → vars a0 = some v →
      lowerCode vars (.instruction (.effect args funcs labels .print))
        = .ok [.callPrintInt v])
    ∧ rt_print_int_sig
        = { callConv := .systemV, params := [AbiParam.mk IRType.I64],
            returns := [] } := by
  constructor
  · intro vars args funcs labels a0 v h0 hv
    simp [lowerCode, h0, hv]
  · rfl

/-- Witness for the amended C4 at a concrete print of variable `b`. -/
theorem print_always_calls_print_int_witness :
    lowerCode (mkVars ["b"]) (.instruction (.effect ["b"] [] [] .print))
      = .ok [.callPrintInt 0] :=
  print_always_calls_print_int.1 (mkVars ["b"]) ["b"] [] [] "b" 0 rfl rfl

/-- Claim C5: under any iteration order of the variable `HashMap`, the number
of virtual registers a function gets equals the number of distinct
destination names among its `Constant`/`Value` instructions (so repeated
definitions of one name share one register), and `Effect` instructions never
contribute a destination. -/
theorem register_count_distinct_dests :
    (∀ (f : Function) (order : List String), validOrder f order →
      order.length = (destNames f).dedup.length
      ∧ ∀ tf, compile_func order f = .ok tf →
          tf.numVars = (destNames f).dedup.length)
    ∧ (∀ (args funcs labels : List String) (op : EffectOps),
      destType (Code.instruction (.effect args funcs labels op)) = none) := by
  constructor
  · intro f order h
    obtain ⟨hnd, hm⟩ := (validOrder_iff f order).1 h
    have hm' : ∀ s, s ∈ order ↔ s ∈ (destNames f).dedup :=
      fun s => (hm s).trans (List.mem_dedup).symm
    have hlen : order.length = (destNames f).dedup.length :=
      ((List.perm_ext_iff_of_nodup hnd (List.nodup_dedup _)).2 hm').length_eq
    refine ⟨hlen, fun tf htf => ?_⟩
    obtain ⟨ops, -, htf'⟩ := compile_func_ok_shape order f tf htf
    rw [htf']
    exact hlen
  · intro args funcs labels op
    rfl

/-- Witness for C5: the function defining `a` twice gets exactly one
register. -/
theorem register_count_distinct_dests_witness :
    (["a"] : List String).length = (destNames repeatDefFunc).dedup.length :=
  (register_count_distinct_dests.1 repeatDefFunc ["a"] (by
    refine (validOrder_iff repeatDefFunc ["a"]).2 ⟨by decide, fun s => ?_⟩
    have hdn : destNames repeatDefFunc = ["a", "a"] := rfl
    rw [hdn]
    simp)).1

/-- Claim C6, counterexample: when `a` is first declared at type `int` and
later redeclared at type `bool`, the pre-pass records `bool` — the type at
the LAST encounter, not the type declared at the first encounter as the
claim states. -/
theorem first_encounter_type_counterexample :
    all_vars typeConflictFunc "a" = some BrilType.bool
    ∧ BrilType.bool ≠ BrilType.int := by decide

/-- Claim C6, amended: the pre-pass scans the `Constant`/`Value` instructions
once in stream order and records, for each destination name, the type
declared at its last encounter (a later declaration overwrites an earlier
one); register indices are assigned by enumerating the resulting hash map,
whose iteration order is unspecified rather than first-encounter order. -/
theorem all_vars_records_last_declaration :
    ∀ (f : Function) (s : String),
      all_vars f s = lastDeclType f.instrs s :=
  all_vars_eq_lastDeclType

/-- Witness for the amended C6 at the redeclared name `a`. -/
theorem all_vars_records_last_declaration_witness :
    all_vars typeConflictFunc "a" = lastDeclType typeConflictFunc.instrs "a" :=
  all_vars_records_last_declaration typeConflictFunc "a"

/-- Claim C7: the type mapper is total on the closed source type set (it is a
total function, and the set holds exactly `int` and `bool`) and injective:
`int` maps to `I64`, `bool` maps to `B1`, and the two images are distinct;
no source type outside the set exists, so none is ever defaulted. -/
theorem type_mapper_total_injective :
    (∀ t₁ t₂ : BrilType, tr_type t₁ = tr_type t₂ → t₁ = t₂)
    ∧ tr_type BrilType.int = IRType.I64
    ∧ tr_type BrilType.bool = IRType.B1
    ∧ IRType.I64 ≠ IRType.B1
    ∧ (∀ t : BrilType, t = BrilType.int ∨ t = BrilType.bool) := by
  refine ⟨?_, rfl, rfl, ?_, ?_⟩
  · intro t₁ t₂ h
    cases t₁ <;> cases t₂ <;> first | rfl | exact IRType.noConfusion h
  · intro h
    exact IRType.noConfusion h
  · intro t
    cases t
    · exact Or.inl rfl
    · exact Or.inr rfl

/-- Witness for C7's injectivity at `int`. -/
theorem type_mapper_total_injective_witness :
    BrilType.int = BrilType.int :=
  type_mapper_total_injective.1 BrilType.int BrilType.int rfl

/-- Claim C8: for every source function, the built signature uses the fixed
`SystemV` calling convention, its parameter list is the mapped type of each
argument in declaration order, and it contains the mapped return type exactly
when the function declares one (none ↦ no return slot, one ↦ exactly that
slot). -/
theorem signature_builder_correct :
    ∀ f : Function,
      (tr_sig f).callConv = CallConv.systemV
      ∧ (tr_sig f).params = f.args.map (fun a => AbiParam.mk (tr_type a.arg_type))
      ∧ (f.return_type = none → (tr_sig f).returns = [])
      ∧ (∀ r, f.return_type = some r →
          (tr_sig f).returns = [AbiParam.mk (tr_type r)]) := by
  intro f
  cases hr : f.return_type with
  | none =>
    have hsig : tr_sig f
        = { callConv := .systemV,
            params := f.args.map (fun a => AbiParam.mk (tr_type a.arg_type)),
            returns := [] } := by
      unfold tr_sig
      rw [hr, tr_sig_foldl]
      simp [Signature.new]
    rw [hsig]
    exact ⟨rfl, rfl, fun _ => rfl, fun r hr' => Option.noConfusion hr'⟩
  | some r0 =>
    have hsig : tr_sig f
        = { callConv := .systemV,
            params := f.args.map (fun a => AbiParam.mk (tr_type a.arg_type)),
            returns := [AbiParam.mk (tr_type r0)] } := by
      unfold tr_sig
      rw [hr, tr_sig_foldl]
      simp [Signature.new]
    rw [hsig]
    refine ⟨rfl, rfl, fun h => Option.noConfusion h, fun r hr' => ?_⟩
    injection hr' with he
    rw [he]

/-- Witness for C8 at the identity function (one `int` argument, `int`
return). -/
theorem signature_builder_correct_witness :
    (tr_sig idFunc).callConv = CallConv.systemV
    ∧ (tr_sig idFunc).returns = [AbiParam.mk (tr_type BrilType.int)] :=
  ⟨(signature_builder_correct idFunc).1,
   (signature_builder_correct idFunc).2.2.2 BrilType.int rfl⟩

/-- Claim C9: every function that lowers successfully has exactly one block,
and its operation stream ends with the return terminator emitted after the
whole source stream was lowered — and that final operation is the only
return in the block. -/
theorem single_block_terminated :
    ∀ (order : List String) (f : Function) (tf : TargetFunction),
      compile_func order f = .ok tf →
      tf.numBlocks = 1
      ∧ ∃ body, tf.ops = body ++ [Op.ret] ∧ Op.ret ∉ body := by
  intro order f tf h
  obtain ⟨ops, hlc, htf⟩ := compile_func_ok_shape order f tf h
  rw [htf]
  exact ⟨rfl, ops, rfl, lowerCodes_ok_ret_not_mem (mkVars order) f.instrs ops hlc⟩

/-- Witness for C9 at Scenario A's function. -/
theorem single_block_terminated_witness :
    ({ name := "main",
       sig := { callConv := .systemV, params := [], returns := [] },
       numVars := 1, numBlocks := 1,
       ops := [.iconst 0 5, .callPrintInt 0, .ret] } : TargetFunction).numBlocks = 1
    ∧ ∃ body,
        ({ name := "main",
           sig := { callConv := .systemV, params := [], returns := [] },
           numVars := 1, numBlocks := 1,
           ops := [.iconst 0 5, .callPrintInt 0, .ret] } : TargetFunction).ops
          = body ++ [Op.ret]
        ∧ Op.ret ∉ body :=
  single_block_terminated ["a"] mainFunc _ rfl

/-- Claim C10: a function whose stream holds only `Value` instructions and
labels compiles with no error and no emitted operations beyond the mandatory
return, while reaching any `Effect` instruction whose operator is not `Print`
(`Jump`, `Branch`, `Return`, ...) makes `compile_func` hit the `todo!()`
panic and aborts the translation. -/
theorem effect_panics_value_label_skipped :
    (∀ (order : List String) (f : Function),
      (∀ c ∈ f.instrs, isValueOrLabel c) →
      compile_func order f
        = .ok { name := f.name, sig := tr_sig f, numVars := order.length,
                numBlocks := 1, ops := [Op.ret] })
    ∧ (∀ (order : List String) (f : Function) (pre : List Code)
        (args funcs labels : List String) (op : EffectOps) (rest : List Code),
      op ≠ .print → (∀ c ∈ pre, isValueOrLabel c) →
      f.instrs = pre ++ .instruction (.effect args funcs labels op) :: rest →
      compile_func order f = .error .todo) := by
  constructor
  · intro order f h
    simp only [compile_func]
    rw [lowerCodes_all_skipped (mkVars order) f.instrs h]
    rfl
  · intro order f pre args funcs labels op rest hop hpre hf
    simp only [compile_func]
    rw [hf]
    rw [lowerCodes_effect_todo (mkVars order) pre hpre args funcs labels op
      hop rest]


/-- Witness for C10: a concrete label-and-`Value` function compiles to the
bare return, and a concrete jump aborts. -/
theorem effect_panics_value_label_skipped_witness :
    compile_func [] valueLabelFunc
      = .ok { name := valueLabelFunc.name, sig := tr_sig valueLabelFunc,
              numVars := 0, numBlocks := 1, ops := [Op.ret] }
    ∧ compile_func [] jumpFunc = .error .todo :=
  ⟨effect_panics_value_label_skipped.1 [] valueLabelFunc (by decide),
   effect_panics_value_label_skipped.2 [] jumpFunc [] [] [] ["somewhere"]
     .jump [] (by decide) (by decide) rfl⟩

end Brilift
